import Mathlib

/-!
Verification of the BarFit/nirvana kinematic-fitting core.

This file gives a shallow embedding of the pieces of the repository that
the verified properties are about:

* the input validation performed by `Kinematics.__init__`
  (src/nirvana/data/kinematics.py),
* the bin/remap machinery (`bin_transform`, `remap`, `bin`),
* `Kinematics.max_radius` and the default coordinate grid,
* the control flow of `Kinematics.mock` around the `border` branch,
* `_set_par`, the `least_squares` call arguments, and the `par_err`
  construction of the disk models (src/nirvana/models/axisym.py and
  src/nirvana/models/bisym.py),
* the bisymmetric line-of-sight velocity formula of
  `BisymmetricDisk.model`.

Real-valued quantities are modelled over `ℝ` (or `ℚ` where the claims are
about exact constants); integer bin identifiers over `ℤ`.
-/

/- ------------------------------------------------------------------ -/
/- Kinematics.__init__ input validation (kinematics.py lines 144-157) -/
/- ------------------------------------------------------------------ -/

/-- The distinct validation failures raised by `Kinematics.__init__`. -/
inductive KinErr where
  | notSquare
  | shapeMismatch
  | xyInconsistent
  | binnedNoGrid
  deriving DecidableEq

/-- The validation sequence of `Kinematics.__init__`.  `nrows`/`ncols` is
the shape of `vel`; `companions` lists the shapes of the optional arrays
that were provided (`none` entries are omitted arguments); the booleans
record which of `x`, `y`, `binid`, `grid_x`, `grid_y` were provided.
The final check mirrors the source line
`if binid is not None and grid_x is None or grid_y is None:` with
Python's precedence, i.e. `(binid provided and grid_x omitted) or
grid_y omitted`. -/
def kinValidate (nrows ncols : ℕ) (companions : List (Option (ℕ × ℕ)))
    (hasX hasY hasBinid hasGridX hasGridY : Bool) : Option KinErr :=
  if ncols ≠ nrows then some .notSquare
  else if companions.any (fun s => s.elim false (fun sh => sh ≠ (nrows, ncols))) then
    some .shapeMismatch
  else if (hasX = false ∧ hasY = true) ∨ (hasX = true ∧ hasY = false) then
    some .xyInconsistent
  else if (hasBinid = true ∧ hasGridX = false) ∨ hasGridY = false then
    some .binnedNoGrid
  else none

/- ------------------------------------------------------------------ -/
/- _set_par and the par_err scatter (axisym.py 92-103, 210-215;       -/
/- bisym.py 238-255, 674-681)                                         -/
/- ------------------------------------------------------------------ -/

/-- Numpy boolean-mask assignment `base[free] = vals`: walk the mask,
consuming one value from `vals` at every `true` position and keeping the
`base` entry at every `false` position.  (`_set_par` only invokes this
with `vals` exactly as long as the number of `true` entries.) -/
def scatterFree : List Bool → List ℝ → List ℝ → List ℝ
  | [], _, _ => []
  | _ :: _, _, [] => []
  | true :: fs, q :: qs, _ :: bs => q :: scatterFree fs qs bs
  | true :: fs, [], b :: bs => b :: scatterFree fs [] bs
  | false :: fs, qs, b :: bs => b :: scatterFree fs qs bs

/-- `AxisymmetricDisk._set_par` / `BisymmetricDisk._set_par`: a vector of
full length replaces `par` verbatim; a vector of free length is scattered
into the free positions; any other length raises a `ValueError` (the
`Except.error` case) leaving `par` untouched. -/
def set_par (free : List Bool) (par : List ℝ) (p : List ℝ) : Except String (List ℝ) :=
  if p.length = par.length then Except.ok p
  else if p.length = free.count true then Except.ok (scatterFree free p par)
  else Except.error "Must provide np or nfree parameters."

/- ------------------------------------------------------------------ -/
/- Helper lemmas for scatterFree                                      -/
/- ------------------------------------------------------------------ -/

/- ------------------------------------------------------------------ -/
/- Claim theorems (first batch)                                       -/
/- ------------------------------------------------------------------ -/

/- ------------------------------------------------------------------ -/
/- least_squares call arguments (axisym.py 198-208, bisym.py 652-671) -/
/- ------------------------------------------------------------------ -/

/-- Numpy boolean-mask selection `v[free]`: the entries of `v` at the
`true` positions of the mask, in order. -/
def maskSelect (free : List Bool) (v : List ℚ) : List ℚ :=
  ((free.zip v).filter (fun fv => fv.1 = true)).map (fun fv => fv.2)

/-- The arguments that `lsq_fit` hands to `scipy.optimize.least_squares`:
the initial point `par[free]`, the bounds `lb[free]`/`ub[free]`, the
finite-difference steps `diff_step[free]`, and the solver method. -/
structure LsqArgs where
  x0 : List ℚ
  lb : List ℚ
  ub : List ℚ
  diffStep : List ℚ
  method : String

/-- `AxisymmetricDisk.lsq_fit`: `diff_step = np.full(self.np, 0.1)` and
every array argument is restricted by the `free` mask; `method='trf'`. -/
def axisymLsqArgs (np : ℕ) (free : List Bool) (par lb ub : List ℚ) : LsqArgs :=
  let diff_step : List ℚ := List.replicate np (1 / 10)
  ⟨maskSelect free par, maskSelect free lb, maskSelect free ub,
    maskSelect free diff_step, "trf"⟩

/-- `BisymmetricDisk.lsq_fit`: `diff_step = np.full(self.np, 0.01)` and
every array argument is restricted by the `free` mask; `method='trf'`. -/
def bisymLsqArgs (np : ℕ) (free : List Bool) (par lb ub : List ℚ) : LsqArgs :=
  let diff_step : List ℚ := List.replicate np (1 / 100)
  ⟨maskSelect free par, maskSelect free lb, maskSelect free ub,
    maskSelect free diff_step, "trf"⟩

/- ------------------------------------------------------------------ -/
/- Default coordinate grid (kinematics.py 166-175)                    -/
/- ------------------------------------------------------------------ -/

/-- The default x coordinate at row `i`, column `j` of the velocity map:
`np.meshgrid(np.arange(n)[::-1], np.arange(n))` makes the first output
vary along the second array axis through the reversed range, and then
`n // 2` is subtracted. -/
def defaultX (n _i j : ℕ) : ℤ :=
  ((n : ℤ) - 1 - (j : ℤ)) - ((n / 2 : ℕ) : ℤ)

/-- The default y coordinate at row `i`, column `j` of the velocity map:
the second `np.meshgrid` output varies along the first array axis through
the unreversed range, and then `n // 2` is subtracted. -/
def defaultY (n i _j : ℕ) : ℤ :=
  (i : ℤ) - ((n / 2 : ℕ) : ℤ)

/- ------------------------------------------------------------------ -/
/- Kinematics.mock border control flow (kinematics.py 497-547)        -/
/- ------------------------------------------------------------------ -/

/-- Failure modes of `Kinematics.mock`: the explicit length `ValueError`
and the `UnboundLocalError` hit when `_psf`/`bordermask` are referenced
without having been assigned. -/
inductive MockErr where
  | valueError
  | unboundLocal
  deriving DecidableEq

/-- Python `int()` truncation toward zero. -/
def pyInt (q : ℚ) : ℤ :=
  if q < 0 then -(Int.floor (-q)) else Int.floor q

/-- Data produced by a successful `Kinematics.mock` call that the border
branch determines: the padded half-extent `_r`, the padded array size
`_size`, and the border width `_bsize`. -/
structure MockOk where
  rOut : ℚ
  sizeOut : ℤ
  bsize : ℤ
  deriving DecidableEq

/-- Control flow of `Kinematics.mock`: the velocity-array length check,
then the `if border:` branch that computes `_r`, `_size`, `_bsize`, and
(crucially) the fact that the locals `_psf` and `bordermask` are assigned
only inside the `if border:` branch but read unconditionally when the
`Kinematics` result is constructed.  Reading an unassigned local is the
`UnboundLocalError` case. -/
def mock (size : ℕ) (border maxr fwhm : ℚ) (nvt nv2t nv2r nsig : ℕ) :
    Except MockErr MockOk :=
  if nvt ≠ nv2t ∨ nvt ≠ nv2r ∨ nvt ≠ nsig then Except.error .valueError
  else
    let rs : ℚ × ℤ :=
      if border ≠ 0 then
        let r := maxr + border * fwhm
        (r, pyInt (r / maxr * (size : ℚ)) + 1)
      else (maxr, (size : ℤ))
    let psfLocal : Option Unit := if border ≠ 0 then some () else none
    let bordermaskLocal : Option Unit := if border ≠ 0 then some () else none
    match psfLocal, bordermaskLocal with
    | some _, some _ => Except.ok ⟨rs.1, rs.2, (rs.2 - (size : ℤ)) / 2⟩
    | _, _ => Except.error .unboundLocal

/- ------------------------------------------------------------------ -/
/- Helper lemmas for maskSelect                                       -/
/- ------------------------------------------------------------------ -/

/- ------------------------------------------------------------------ -/
/- Claim theorems: C6, C7, C9                                         -/
/- ------------------------------------------------------------------ -/

/- ------------------------------------------------------------------ -/
/- Bin aggregation and remapping (kinematics.py 203-245, 349-424)     -/
/- ------------------------------------------------------------------ -/

/-- The flattened bin-id map `binid.ravel()` (its list of values over the
`N` grid cells). -/
def binVals (N : ℕ) (binid : Fin N → ℤ) : List ℤ :=
  (List.finRange N).map binid

/-- `np.unique(binid_map)`: the sorted list of distinct bin ids. -/
def uniqueSorted (N : ℕ) (binid : Fin N → ℤ) : List ℤ :=
  List.insertionSort (fun a b => a ≤ b) (binVals N binid).dedup

/-- The final `self.binid` of a binned `Kinematics`: the unique bin ids,
with the first entry dropped when `-1` occurs among them (the source
drops `self.binid[1:]` whenever `np.any(self.binid == -1)`). -/
def binIdList (N : ℕ) (binid : Fin N → ℤ) : List ℤ :=
  if (-1 : ℤ) ∈ uniqueSorted N binid then (uniqueSorted N binid).drop 1
  else uniqueSorted N binid

/-- Position of a bin id in a list of unique ids (the `bin_inverse`
value of a grid cell: `none` when the cell belongs to no retained bin). -/
def idxOf? (b : ℤ) : List ℤ → Option ℕ
  | [] => none
  | a :: l => if a = b then some 0 else (idxOf? b l).map (· + 1)

/-- The number of grid cells in bin `b` (`np.unique`'s `return_counts`). -/
def nbin (N : ℕ) (binid : Fin N → ℤ) (b : ℤ) : ℕ :=
  (Finset.univ.filter fun j : Fin N => binid j = b).card

/-- `Kinematics.remap(v, masked=False)` for binned data: scatter the
per-bin vector `v` onto the grid (cell `j` receives the value of its bin;
cells outside every retained bin receive `0`). -/
def remapB (N : ℕ) (binid : Fin N → ℤ) (v : ℕ → ℝ) (j : Fin N) : ℝ :=
  match idxOf? (binid j) (binIdList N binid) with
  | some i => v i
  | none => 0

/-- Row `i` of `bin_transform` for binned data: weight `1/bin_size` at
every cell of the `i`-th retained bin, `0` elsewhere. -/
noncomputable def binT (N : ℕ) (binid : Fin N → ℤ) (i : ℕ) (j : Fin N) : ℝ :=
  if binid j = (binIdList N binid).getD i 0 then ((nbin N binid (binid j) : ℝ))⁻¹ else 0

/-- `Kinematics.bin` for binned data: apply `bin_transform` to a
flattened grid array. -/
noncomputable def binB (N : ℕ) (binid : Fin N → ℤ) (d : Fin N → ℝ) (i : ℕ) : ℝ :=
  ∑ j : Fin N, binT N binid i j * d j

/-- Row `i` of `bin_transform` for unbinned data: the identity sparse
matrix `coo_matrix((ones, (grid_indx, grid_indx)))`. -/
def binTU (N : ℕ) (i j : Fin N) : ℝ := if i = j then 1 else 0

/-- `Kinematics.bin` for unbinned data. -/
def binU (N : ℕ) (d : Fin N → ℝ) (i : Fin N) : ℝ :=
  ∑ j : Fin N, binTU N i j * d j

/-- `Kinematics.remap(v, masked=False)` for unbinned data: `grid_indx`
and `bin_inverse` are both `arange(N)`, so every cell receives its own
value. -/
def remapU (N : ℕ) (v : Fin N → ℝ) : Fin N → ℝ := fun j => v j

/- ------------------------------------------------------------------ -/
/- Helper lemmas for the bin machinery                                -/
/- ------------------------------------------------------------------ -/

/-- A concrete 2x2 bin-id map (flattened): two cells in bin 0, one cell
in bin 1, and one cell outside every bin (`-1`). -/
def exBinid : Fin 4 → ℤ := fun j => ([0, 0, 1, -1] : List ℤ).getD j.val 0

/- ------------------------------------------------------------------ -/
/- Kinematics.max_radius (kinematics.py 426-434)                      -/
/- ------------------------------------------------------------------ -/

/-- `np.amin` over the nonempty coordinate vector `a :: l`. -/
def coordMin (a : ℝ) (l : List ℝ) : ℝ := l.foldl min a

/-- `np.amax` over the nonempty coordinate vector `a :: l`. -/
def coordMax (a : ℝ) (l : List ℝ) : ℝ := l.foldl max a

/-- `Kinematics.max_radius`: `sqrt(max(abs(minx), maxx)**2 +
max(abs(miny), maxy)**2)` over the stored coordinate vectors
`x = x0 :: xs` and `y = y0 :: ys`. -/
noncomputable def maxRadius (x0 y0 : ℝ) (xs ys : List ℝ) : ℝ :=
  Real.sqrt (max |coordMin x0 xs| (coordMax x0 xs) ^ 2
    + max |coordMin y0 ys| (coordMax y0 ys) ^ 2)

/- ------------------------------------------------------------------ -/
/- Post-fit parameter errors (axisym.py 210-215)                      -/
/- ------------------------------------------------------------------ -/

/-- The `par_err` produced at the end of `AxisymmetricDisk.lsq_fit`.
`covDiag` is the diagonal of the Jacobian-based covariance estimate
`cov_err(result.jac)` when that computation succeeds, `none` when it
raises (the bare `except:` branch sets `par_err = None`).  On success
`par_err` starts as `np.zeros(self.np)` and the free entries receive
`np.sqrt(np.diag(cov))`. -/
noncomputable def lsqParErr (np : ℕ) (free : List Bool) (covDiag : Option (List ℝ)) :
    Option (List ℝ) :=
  match covDiag with
  | none => none
  | some d => some (scatterFree free (d.map Real.sqrt) (List.replicate np (0 : ℝ)))

/- ------------------------------------------------------------------ -/
/- BisymmetricDisk.model line-of-sight velocity (bisym.py 358-380)    -/
/- ------------------------------------------------------------------ -/

/-- `_pab = (pab + np.pi/2) % np.pi - np.pi/2`: numpy's floored float
modulus written out as `x - pi * floor(x / pi)`. -/
noncomputable def wrapPab (pab : ℝ) : ℝ :=
  (pab + Real.pi / 2) - Real.pi * ⌊(pab + Real.pi / 2) / Real.pi⌋ - Real.pi / 2

/-- `theta_b = theta - np.arctan(np.tan(_pab) / np.cos(inc))`. -/
noncomputable def bisymThetaB (theta pab inc : ℝ) : ℝ :=
  theta - Real.arctan (Real.tan (wrapPab pab) / Real.cos inc)

/-- The line-of-sight velocity computed by `BisymmetricDisk.model` at a
grid point of deprojected radius `r` and azimuth `theta`:
`par[5] + vt(r)*cos(theta) - v2t(r)*cos(theta)*cos(2*theta_b)
- v2r(r)*sin(theta)*sin(2*theta_b)`.  The sub-curve samples
`vt`, `v2t`, `v2r` stand for `self.vt.sample(r, par=...)` etc.; note no
`sin(inc)` factor multiplies any amplitude. -/
noncomputable def bisymVel (vsys pab inc : ℝ) (vt v2t v2r : ℝ → ℝ) (r theta : ℝ) : ℝ :=
  vsys + vt r * Real.cos theta
    - v2t r * Real.cos theta * Real.cos (2 * bisymThetaB theta pab inc)
    - v2r r * Real.sin theta * Real.sin (2 * bisymThetaB theta pab inc)

/- ------------------------------------------------------------------ -/
/- Lemmas and claim theorems                                          -/
/- ------------------------------------------------------------------ -/

theorem scatterFree_length (fs : List Bool) (qs bs : List ℝ) (h : fs.length = bs.length) :
    (scatterFree fs qs bs).length = bs.length := by
  induction fs generalizing qs bs with
  | nil =>
    cases bs with
    | nil => rfl
    | cons b bt => simp at h
  | cons f ft ih =>
    cases bs with
    | nil => simp at h
    | cons b bt =>
      cases f with
      | false => simpa [scatterFree] using ih qs bt (by simpa using h)
      | true =>
        cases qs with
        | nil => simpa [scatterFree] using ih [] bt (by simpa using h)
        | cons q qt => simpa [scatterFree] using ih qt bt (by simpa using h)

theorem scatterFree_fixed (fs : List Bool) (qs bs : List ℝ) (i : ℕ)
    (h : fs.length = bs.length) (hi : i < bs.length)
    (hf : fs.getD i false = false) :
    (scatterFree fs qs bs).getD i 0 = bs.getD i 0 := by
  induction fs generalizing qs bs i with
  | nil =>
    cases bs with
    | nil => simp at hi
    | cons b bt => simp at h
  | cons f ft ih =>
    cases bs with
    | nil => simp at hi
    | cons b bt =>
      cases f with
      | false =>
        cases i with
        | zero => simp [scatterFree]
        | succ n =>
          have h' : ft.length = bt.length := by simpa using h
          have hi' : n < bt.length := by simpa using hi
          have hf' : ft.getD n false = false := by simpa using hf
          simpa [scatterFree] using ih qs bt n h' hi' hf'
      | true =>
        cases i with
        | zero => simp at hf
        | succ n =>
          have h' : ft.length = bt.length := by simpa using h
          have hi' : n < bt.length := by simpa using hi
          have hf' : ft.getD n false = false := by simpa using hf
          cases qs with
          | nil => simpa [scatterFree] using ih [] bt n h' hi' hf'
          | cons q qt => simpa [scatterFree] using ih qt bt n h' hi' hf'

theorem scatterFree_free (fs : List Bool) (qs bs : List ℝ) (i : ℕ)
    (h : fs.length = bs.length) (hq : qs.length = fs.count true) (hi : i < bs.length)
    (hf : fs.getD i false = true) :
    (scatterFree fs qs bs).getD i 0 = qs.getD ((fs.take i).count true) 0 := by
  induction fs generalizing qs bs i with
  | nil =>
    cases bs with
    | nil => simp at hi
    | cons b bt => simp at h
  | cons f ft ih =>
    cases bs with
    | nil => simp at hi
    | cons b bt =>
      cases f with
      | false =>
        cases i with
        | zero => simp at hf
        | succ n =>
          have h' : ft.length = bt.length := by simpa using h
          have hq' : qs.length = ft.count true := by simpa [List.count_cons] using hq
          have hi' : n < bt.length := by simpa using hi
          have hf' : ft.getD n false = true := by simpa using hf
          simpa [scatterFree, List.count_cons] using ih qs bt n h' hq' hi' hf'
      | true =>
        have hqpos : 0 < qs.length := by
          rw [hq]
          simp [List.count_cons]
        cases qs with
        | nil => simp at hqpos
        | cons q qt =>
          cases i with
          | zero => simp [scatterFree]
          | succ n =>
            have h' : ft.length = bt.length := by simpa using h
            have hq' : qt.length = ft.count true := by
              have := hq
              simp [List.count_cons] at this
              omega
            have hi' : n < bt.length := by simpa using hi
            have hf' : ft.getD n false = true := by simpa using hf
            simpa [scatterFree, List.count_cons] using ih qt bt n h' hq' hi' hf'

/-- Claim C1 (code bug): with a square 2x2 `vel`, no companion arrays, and
`x`, `y`, `binid`, `grid_x`, `grid_y` all omitted, `Kinematics.__init__`
raises the binned-without-grid `ValueError` even though `binid` was not
provided, because `binid is not None and grid_x is None or grid_y is None`
parses as `(binid is not None and grid_x is None) or (grid_y is None)`.
The claim (and the class docstring) say no error should be raised here. -/
theorem kinematics_binned_grid_check_bug :
    kinValidate 2 2 [] false false false false false = some KinErr.binnedNoGrid := by
  decide

/-- Claim C5: `_set_par` with a full-length vector sets `par` to exactly
that vector; with a free-length vector it overwrites only the free-indexed
entries (in mask order) and leaves every fixed entry unchanged; with any
other length it fails with a validation error (and in that case no new
parameter vector is produced). -/
theorem set_par_behavior (free : List Bool) (par p : List ℝ)
    (hlen : free.length = par.length) :
    (p.length = par.length → set_par free par p = Except.ok p)
    ∧ (p.length ≠ par.length → p.length = free.count true →
        ∃ q, set_par free par p = Except.ok q ∧ q.length = par.length
          ∧ (∀ i, i < par.length → free.getD i false = false →
              q.getD i 0 = par.getD i 0)
          ∧ (∀ i, i < par.length → free.getD i false = true →
              q.getD i 0 = p.getD ((free.take i).count true) 0))
    ∧ (p.length ≠ par.length → p.length ≠ free.count true →
        ∃ e, set_par free par p = Except.error e) := by
  refine ⟨fun hfull => ?_, fun hne hfree => ?_, fun hne hnf => ?_⟩
  · simp [set_par, hfull]
  · refine ⟨scatterFree free p par, ?_, ?_, ?_, ?_⟩
    · simp only [set_par]
      rw [if_neg hne, if_pos hfree]
    · exact scatterFree_length free p par hlen
    · exact fun i hi hf => scatterFree_fixed free p par i hlen hi hf
    · exact fun i hi hf => scatterFree_free free p par i hlen hfree hi hf
  · refine ⟨"Must provide np or nfree parameters.", ?_⟩
    simp only [set_par]
    rw [if_neg hne, if_neg hnf]

/-- Witness for C5 at a concrete input: two parameters, first free, second
fixed; a free-length vector of length one is accepted. -/
theorem set_par_behavior_witness :
    ([true, false] : List Bool).length = ([1, 2] : List ℝ).length
    ∧ set_par [true, false] [1, 2] [9, 9] = Except.ok [9, 9] :=
  ⟨by simp, (set_par_behavior [true, false] [1, 2] [9, 9] (by simp)).1 (by simp)⟩

theorem maskSelect_length (free : List Bool) (v : List ℚ) (h : free.length = v.length) :
    (maskSelect free v).length = free.count true := by
  induction free generalizing v with
  | nil => simp [maskSelect]
  | cons f ft ih =>
    cases v with
    | nil => simp at h
    | cons a vt =>
      have h' : ft.length = vt.length := by simpa using h
      cases f with
      | false => simpa [maskSelect, List.count_cons] using ih vt h'
      | true =>
        have := ih vt h'
        simp [maskSelect, List.count_cons] at this ⊢
        omega

theorem maskSelect_mem (free : List Bool) (v : List ℚ) (q : ℚ)
    (h : q ∈ maskSelect free v) : q ∈ v := by
  simp only [maskSelect, List.mem_map, List.mem_filter] at h
  obtain ⟨⟨f, a⟩, ⟨hz, _⟩, rfl⟩ := h
  exact (List.of_mem_zip hz).2

/-- Claim C6 (counterexample): `AxisymmetricDisk.lsq_fit` passes a
per-parameter finite-difference step of `0.1`, not the claimed `0.01`:
already with one free parameter the step list is `[1/10]`, and
`1/10 ≠ 1/100`. -/
theorem axisym_diff_step_counterexample :
    (axisymLsqArgs 1 [true] [0] [0] [0]).diffStep = [1 / 10]
    ∧ ¬ ((1 : ℚ) / 10 = 1 / 100) := by
  constructor
  · rfl
  · norm_num

/-- Claim C6 (amended): both `lsq_fit` variants run the bounded
trust-region solver (`method='trf'`) over only the free parameter subset
(initial point, bounds and step sizes all restricted by the `free` mask,
hence of length `nfree` and drawn from the full vectors), with a
per-parameter relative step of `0.1` for the axisymmetric model and
`0.01` for the bisymmetric model. -/
theorem lsq_fit_free_subset_and_steps (np : ℕ) (free : List Bool) (par lb ub : List ℚ)
    (hf : free.length = np) :
    ((axisymLsqArgs np free par lb ub).method = "trf"
      ∧ (bisymLsqArgs np free par lb ub).method = "trf")
    ∧ (∀ q ∈ (axisymLsqArgs np free par lb ub).diffStep, q = 1 / 10)
    ∧ (∀ q ∈ (bisymLsqArgs np free par lb ub).diffStep, q = 1 / 100)
    ∧ (axisymLsqArgs np free par lb ub).diffStep.length = free.count true
    ∧ (par.length = np → (axisymLsqArgs np free par lb ub).x0.length = free.count true)
    ∧ (lb.length = np → (axisymLsqArgs np free par lb ub).lb.length = free.count true)
    ∧ (ub.length = np → (axisymLsqArgs np free par lb ub).ub.length = free.count true)
    ∧ (∀ q ∈ (axisymLsqArgs np free par lb ub).x0, q ∈ par)
    ∧ (bisymLsqArgs np free par lb ub).x0 = (axisymLsqArgs np free par lb ub).x0 := by
  refine ⟨⟨rfl, rfl⟩, ?_, ?_, ?_, ?_, ?_, ?_, ?_, rfl⟩
  · intro q hq
    exact List.eq_of_mem_replicate (maskSelect_mem free _ q hq)
  · intro q hq
    exact List.eq_of_mem_replicate (maskSelect_mem free _ q hq)
  · exact maskSelect_length free _ (by simp [hf])
  · intro hp
    exact maskSelect_length free par (by rw [hf, hp])
  · intro hp
    exact maskSelect_length free lb (by rw [hf, hp])
  · intro hp
    exact maskSelect_length free ub (by rw [hf, hp])
  · intro q hq
    exact maskSelect_mem free par q hq

/-- Witness for the amended C6 at a concrete input: two parameters, the
first free and the second fixed. -/
theorem lsq_fit_free_subset_and_steps_witness :
    ([true, false] : List Bool).length = 2
    ∧ (∀ q ∈ (axisymLsqArgs 2 [true, false] [3, 4] [0, 0] [9, 9]).diffStep, q = 1 / 10) :=
  ⟨rfl, (lsq_fit_free_subset_and_steps 2 [true, false] [3, 4] [0, 0] [9, 9] rfl).2.1⟩

/-- Claim C7 (counterexample): in the default coordinate grid the x
coordinate does not decrease with increasing first-axis index: for a 2x2
grid, `x[0,0] = x[1,0] = 0`.  (x varies along the second array axis.) -/
theorem default_grid_x_axis_counterexample :
    defaultX 2 0 0 = 0 ∧ defaultX 2 1 0 = 0 ∧ ¬ defaultX 2 1 0 < defaultX 2 0 0 := by
  decide

/-- Claim C7 (amended): the default grid built when `x`/`y` are omitted
is sky-right with x strictly decreasing along the *second* array axis and
independent of the first, y strictly increasing along the *first* array
axis and independent of the second; both axes are offset by `-(n // 2)`
(so `x == 0` at the central column and `y == 0` at the central row). -/
theorem default_grid_properties (n i i' j j' : ℕ)
    (_hn : 0 < n) (hj : j < j') (hj' : j' < n) (hi : i < i') (_hi : i' < n) :
    defaultX n i j' < defaultX n i j
    ∧ defaultX n i j = defaultX n i' j
    ∧ defaultY n i j < defaultY n i' j
    ∧ defaultY n i j = defaultY n i j'
    ∧ defaultX n i j + ((n / 2 : ℕ) : ℤ) = (n : ℤ) - 1 - (j : ℤ)
    ∧ defaultY n i j + ((n / 2 : ℕ) : ℤ) = (i : ℤ)
    ∧ defaultX n i (n - 1 - n / 2) = 0
    ∧ defaultY n (n / 2) j = 0 := by
  unfold defaultX defaultY
  refine ⟨by omega, by omega, by omega, by omega, by omega, by omega, ?_, by omega⟩
  have hcast : ((n - 1 - n / 2 : ℕ) : ℤ) = (n : ℤ) - 1 - ((n / 2 : ℕ) : ℤ) := by omega
  omega

/-- Witness for the amended C7 on a concrete 3x3 grid. -/
theorem default_grid_properties_witness :
    (0 < 3 ∧ (0 : ℕ) < 1 ∧ (1 : ℕ) < 3)
    ∧ defaultX 3 0 1 < defaultX 3 0 0 :=
  ⟨⟨by decide, by decide, by decide⟩,
    (default_grid_properties 3 0 1 0 1 (by decide) (by decide) (by decide) (by decide)
      (by decide)).1⟩

/-- Claim C9: `Kinematics.mock` called with `border = 0` never returns a
`Kinematics`: if the velocity-array length check fails it raises the
length `ValueError`, and otherwise it hits the unconditional reads of the
locals `_psf` and `bordermask`, which are assigned only inside the
`if border:` branch, so the call fails with an unbound-local error. -/
theorem mock_border_unbound_local (size : ℕ) (border maxr fwhm : ℚ)
    (nvt nv2t nv2r nsig : ℕ) (hb : border = 0) :
    (∀ k, mock size border maxr fwhm nvt nv2t nv2r nsig ≠ Except.ok k)
    ∧ (nvt = nv2t → nvt = nv2r → nvt = nsig →
        mock size border maxr fwhm nvt nv2t nv2r nsig = Except.error MockErr.unboundLocal) := by
  subst hb
  constructor
  · intro k
    by_cases hlen : nvt ≠ nv2t ∨ nvt ≠ nv2r ∨ nvt ≠ nsig
    · simp [mock, hlen]
    · simp [mock, hlen]
  · intro h1 h2 h3
    simp only [mock]
    rw [if_neg (by omega)]
    simp

/-- Witness for C9 at a concrete input: `border = 0` with consistent
velocity-array lengths fails with the unbound-local error. -/
theorem mock_border_unbound_local_witness :
    (0 : ℚ) = 0
    ∧ mock 10 0 15 (61 / 25) 2 2 2 2 = Except.error MockErr.unboundLocal :=
  ⟨rfl, (mock_border_unbound_local 10 0 15 (61 / 25) 2 2 2 2 rfl).2 rfl rfl rfl⟩

theorem mem_uniqueSorted_iff (N : ℕ) (binid : Fin N → ℤ) (b : ℤ) :
    b ∈ uniqueSorted N binid ↔ b ∈ binVals N binid := by
  unfold uniqueSorted
  rw [(List.perm_insertionSort (fun a c => a ≤ c) (binVals N binid).dedup).mem_iff]
  exact List.mem_dedup

theorem nodup_uniqueSorted (N : ℕ) (binid : Fin N → ℤ) :
    (uniqueSorted N binid).Nodup := by
  unfold uniqueSorted
  rw [(List.perm_insertionSort (fun a c => a ≤ c) (binVals N binid).dedup).nodup_iff]
  exact (binVals N binid).nodup_dedup

theorem nodup_binIdList (N : ℕ) (binid : Fin N → ℤ) :
    (binIdList N binid).Nodup := by
  unfold binIdList
  split
  · exact ((uniqueSorted N binid).drop_sublist 1).nodup (nodup_uniqueSorted N binid)
  · exact nodup_uniqueSorted N binid

theorem mem_of_mem_binIdList (N : ℕ) (binid : Fin N → ℤ) (b : ℤ)
    (h : b ∈ binIdList N binid) : b ∈ binVals N binid := by
  rw [← mem_uniqueSorted_iff]
  unfold binIdList at h
  split at h
  · exact ((uniqueSorted N binid).drop_sublist 1).subset h
  · exact h

theorem nbin_pos (N : ℕ) (binid : Fin N → ℤ) (b : ℤ)
    (h : b ∈ binVals N binid) : 0 < nbin N binid b := by
  unfold binVals at h
  obtain ⟨j, _, hj⟩ := List.mem_map.1 h
  refine Finset.card_pos.2 ⟨j, ?_⟩
  simp [hj]

theorem idxOf?_get (l : List ℤ) (hl : l.Nodup) (i : ℕ) (h : i < l.length) :
    idxOf? (l.get ⟨i, h⟩) l = some i := by
  induction l generalizing i with
  | nil => simp at h
  | cons a t ih =>
    cases i with
    | zero => simp [idxOf?]
    | succ n =>
      have hn : n < t.length := by simpa using h
      have hne : a ≠ t.get ⟨n, hn⟩ := by
        intro hcontra
        exact (List.nodup_cons.1 hl).1 (hcontra ▸ List.get_mem t n hn)
      have : (a :: t).get ⟨n + 1, h⟩ = t.get ⟨n, hn⟩ := rfl
      rw [this, idxOf?, if_neg hne, ih (List.nodup_cons.1 hl).2 n hn]
      rfl

theorem sum_indicator_const (N : ℕ) (P : Fin N → Prop) [DecidablePred P] (c : ℝ) :
    (∑ j : Fin N, if P j then c else 0) = ((Finset.univ.filter P).card : ℝ) * c := by
  rw [Finset.sum_ite, Finset.sum_const, Finset.sum_const_zero, add_zero, nsmul_eq_mul]

/-- Claim C3: the bin/remap round trip is lossless.  For any bin-id map,
applying `bin_transform` to the grid produced by `remap(v, masked=False)`
recovers `v` on every retained bin; and for unbinned data both
compositions `bin ∘ remap` and `remap ∘ bin` are the identity. -/
theorem bin_remap_roundtrip :
    (∀ (N : ℕ) (binid : Fin N → ℤ) (v : ℕ → ℝ) (i : ℕ)
        (h : i < (binIdList N binid).length),
        binB N binid (remapB N binid v) i = v i)
    ∧ (∀ (N : ℕ) (v : Fin N → ℝ) (j : Fin N), binU N (remapU N v) j = v j)
    ∧ (∀ (N : ℕ) (d : Fin N → ℝ) (j : Fin N), remapU N (binU N d) j = d j) := by
  refine ⟨?_, ?_, ?_⟩
  · intro N binid v i h
    have hb : (binIdList N binid).getD i 0 = (binIdList N binid).get ⟨i, h⟩ :=
      List.getD_eq_get _ _ h
    set b := (binIdList N binid).get ⟨i, h⟩ with hbdef
    have hbl : b ∈ binIdList N binid := List.get_mem _ i h
    have hbv : b ∈ binVals N binid := mem_of_mem_binIdList N binid b hbl
    have hpos : 0 < nbin N binid b := nbin_pos N binid b hbv
    have hne : ((nbin N binid b : ℝ)) ≠ 0 := Nat.cast_ne_zero.2 (Nat.pos_iff_ne_zero.1 hpos)
    have hterm : ∀ j : Fin N,
        binT N binid i j * remapB N binid v j
          = if binid j = b then ((nbin N binid b : ℝ))⁻¹ * v i else 0 := by
      intro j
      by_cases hj : binid j = b
      · have hidx : idxOf? b (binIdList N binid) = some i := by
          rw [hbdef]
          exact idxOf?_get _ (nodup_binIdList N binid) i h
        have hremap : remapB N binid v j = v i := by
          unfold remapB
          rw [hj, hidx]
        have hbt : binT N binid i j = ((nbin N binid b : ℝ))⁻¹ := by
          unfold binT
          rw [hb, hj, if_pos rfl]
        rw [hbt, hremap, if_pos hj]
      · have hbt : binT N binid i j = 0 := by
          unfold binT
          rw [hb, if_neg hj]
        rw [hbt, zero_mul, if_neg hj]
    calc binB N binid (remapB N binid v) i
        = ∑ j : Fin N, if binid j = b then ((nbin N binid b : ℝ))⁻¹ * v i else 0 :=
          Finset.sum_congr rfl (fun j _ => hterm j)
      _ = ((Finset.univ.filter fun j : Fin N => binid j = b).card : ℝ)
            * (((nbin N binid b : ℝ))⁻¹ * v i) :=
          sum_indicator_const N _ _
      _ = (nbin N binid b : ℝ) * (((nbin N binid b : ℝ))⁻¹ * v i) := rfl
      _ = v i := by
          rw [← mul_assoc, mul_inv_cancel₀ hne, one_mul]
  · intro N v j
    simp only [binU, remapU, binTU, ite_mul, one_mul, zero_mul]
    rw [Finset.sum_ite_eq]
    simp
  · intro N d j
    simp only [remapU, binU, binTU, ite_mul, one_mul, zero_mul]
    rw [Finset.sum_ite_eq]
    simp

/-- Witness for C3 at a concrete binned map (two cells in bin 0, one in
bin 1, one unbinned): binning the remapped constant vector recovers it. -/
theorem bin_remap_roundtrip_witness :
    0 < (binIdList 4 exBinid).length
    ∧ binB 4 exBinid (remapB 4 exBinid (fun _ => 7)) 0 = 7 :=
  ⟨by decide, bin_remap_roundtrip.1 4 exBinid (fun _ => 7) 0 (by decide)⟩

/-- Claim C4: every row of `bin_transform` sums to 1 — for binned data
every retained bin's row (each such bin has at least one constituent
cell), and for unbinned data every row of the identity operator. -/
theorem bin_transform_rows_sum_to_one :
    (∀ (N : ℕ) (binid : Fin N → ℤ) (i : ℕ) (h : i < (binIdList N binid).length),
        0 < nbin N binid ((binIdList N binid).getD i 0) →
        (∑ j : Fin N, binT N binid i j) = 1)
    ∧ (∀ (N : ℕ) (i : Fin N), (∑ j : Fin N, binTU N i j) = 1) := by
  constructor
  · intro N binid i h _hp
    have hb : (binIdList N binid).getD i 0 = (binIdList N binid).get ⟨i, h⟩ :=
      List.getD_eq_get _ _ h
    set b := (binIdList N binid).get ⟨i, h⟩ with hbdef
    have hbl : b ∈ binIdList N binid := List.get_mem _ i h
    have hbv : b ∈ binVals N binid := mem_of_mem_binIdList N binid b hbl
    have hpos : 0 < nbin N binid b := nbin_pos N binid b hbv
    have hne : ((nbin N binid b : ℝ)) ≠ 0 := Nat.cast_ne_zero.2 (Nat.pos_iff_ne_zero.1 hpos)
    have hterm : ∀ j : Fin N,
        binT N binid i j = if binid j = b then ((nbin N binid b : ℝ))⁻¹ else 0 := by
      intro j
      by_cases hj : binid j = b
      · have hbt : binT N binid i j = ((nbin N binid b : ℝ))⁻¹ := by
          unfold binT
          rw [hb, hj, if_pos rfl]
        rw [hbt, if_pos hj]
      · have hbt : binT N binid i j = 0 := by
          unfold binT
          rw [hb, if_neg hj]
        rw [hbt, if_neg hj]
    calc (∑ j : Fin N, binT N binid i j)
        = ∑ j : Fin N, if binid j = b then ((nbin N binid b : ℝ))⁻¹ else 0 :=
          Finset.sum_congr rfl (fun j _ => hterm j)
      _ = ((Finset.univ.filter fun j : Fin N => binid j = b).card : ℝ)
            * ((nbin N binid b : ℝ))⁻¹ :=
          sum_indicator_const N _ _
      _ = (nbin N binid b : ℝ) * ((nbin N binid b : ℝ))⁻¹ := rfl
      _ = 1 := mul_inv_cancel₀ hne
  · intro N i
    simp only [binTU]
    rw [Finset.sum_ite_eq]
    simp

/-- Witness for C4 on the same concrete binned map: the first row of the
bin transform sums to 1. -/
theorem bin_transform_rows_sum_to_one_witness :
    0 < (binIdList 4 exBinid).length
    ∧ 0 < nbin 4 exBinid ((binIdList 4 exBinid).getD 0 0)
    ∧ (∑ j : Fin 4, binT 4 exBinid 0 j) = 1 :=
  ⟨by decide, by decide,
    bin_transform_rows_sum_to_one.1 4 exBinid 0 (by decide) (by decide)⟩

theorem coordMin_le_init (l : List ℝ) : ∀ a : ℝ, coordMin a l ≤ a := by
  induction l with
  | nil => intro a; exact le_refl a
  | cons c t ih =>
    intro a
    exact le_trans (ih (min a c)) (min_le_left a c)

theorem coordMin_le (l : List ℝ) : ∀ (a x : ℝ), x ∈ a :: l → coordMin a l ≤ x := by
  induction l with
  | nil =>
    intro a x hx
    rw [List.mem_singleton] at hx
    rw [hx]
    exact le_refl a
  | cons c t ih =>
    intro a x hx
    rcases List.mem_cons.1 hx with h | h
    · rw [h]
      exact le_trans (coordMin_le_init t (min a c)) (min_le_left a c)
    · rcases List.mem_cons.1 h with h' | h'
      · rw [h']
        exact le_trans (coordMin_le_init t (min a c)) (min_le_right a c)
      · exact ih (min a c) x (List.mem_cons_of_mem _ h')

theorem le_coordMax_init (l : List ℝ) : ∀ a : ℝ, a ≤ coordMax a l := by
  induction l with
  | nil => intro a; exact le_refl a
  | cons c t ih =>
    intro a
    exact le_trans (le_max_left a c) (ih (max a c))

theorem le_coordMax (l : List ℝ) : ∀ (a x : ℝ), x ∈ a :: l → x ≤ coordMax a l := by
  induction l with
  | nil =>
    intro a x hx
    rw [List.mem_singleton] at hx
    rw [hx]
    exact le_refl a
  | cons c t ih =>
    intro a x hx
    rcases List.mem_cons.1 hx with h | h
    · rw [h]
      exact le_trans (le_max_left a c) (le_coordMax_init t (max a c))
    · rcases List.mem_cons.1 h with h' | h'
      · rw [h']
        exact le_trans (le_max_right a c) (le_coordMax_init t (max a c))
      · exact ih (max a c) x (List.mem_cons_of_mem _ h')

theorem abs_le_minmax (a x : ℝ) (l : List ℝ) (hx : x ∈ a :: l) :
    |x| ≤ max |coordMin a l| (coordMax a l) := by
  rcases le_or_lt 0 x with hpos | hneg
  · calc |x| = x := abs_of_nonneg hpos
      _ ≤ coordMax a l := le_coordMax l a x hx
      _ ≤ max |coordMin a l| (coordMax a l) := le_max_right _ _
  · have hmin : coordMin a l ≤ x := coordMin_le l a x hx
    calc |x| = -x := abs_of_neg hneg
      _ ≤ -coordMin a l := by linarith
      _ ≤ |coordMin a l| := neg_le_abs _
      _ ≤ max |coordMin a l| (coordMax a l) := le_max_left _ _

/-- Claim C8: `max_radius()` encloses every stored data point: for every
coordinate pair drawn from the stored vectors, the point's distance from
the origin is at most the returned radius. -/
theorem max_radius_encloses_points (x0 y0 : ℝ) (xs ys : List ℝ) (a b : ℝ)
    (ha : a ∈ x0 :: xs) (hb : b ∈ y0 :: ys) :
    Real.sqrt (a ^ 2 + b ^ 2) ≤ maxRadius x0 y0 xs ys := by
  unfold maxRadius
  apply Real.sqrt_le_sqrt
  have hax : |a| ≤ max |coordMin x0 xs| (coordMax x0 xs) := abs_le_minmax x0 a xs ha
  have hby : |b| ≤ max |coordMin y0 ys| (coordMax y0 ys) := abs_le_minmax y0 b ys hb
  have h1 : a ^ 2 ≤ max |coordMin x0 xs| (coordMax x0 xs) ^ 2 := by
    rw [← sq_abs a]
    exact pow_le_pow_left₀ (abs_nonneg a) hax 2
  have h2 : b ^ 2 ≤ max |coordMin y0 ys| (coordMax y0 ys) ^ 2 := by
    rw [← sq_abs b]
    exact pow_le_pow_left₀ (abs_nonneg b) hby 2
  linarith

/-- Witness for C8 at a single stored data point `(3, 4)`. -/
theorem max_radius_encloses_points_witness :
    ((3 : ℝ) ∈ [(3 : ℝ)] ∧ (4 : ℝ) ∈ [(4 : ℝ)])
    ∧ Real.sqrt ((3 : ℝ) ^ 2 + (4 : ℝ) ^ 2) ≤ maxRadius 3 4 [] [] :=
  ⟨⟨List.mem_singleton.2 rfl, List.mem_singleton.2 rfl⟩,
    max_radius_encloses_points 3 4 [] [] 3 4 (List.mem_singleton.2 rfl)
      (List.mem_singleton.2 rfl)⟩

theorem count_take_lt (fs : List Bool) (i : ℕ) (hi : i < fs.length)
    (hf : fs.getD i false = true) :
    (fs.take i).count true < fs.count true := by
  induction fs generalizing i with
  | nil => simp at hi
  | cons f ft ih =>
    cases i with
    | zero =>
      have hfv : f = true := by simpa using hf
      subst hfv
      simp [List.count_cons]
    | succ n =>
      have hn : n < ft.length := by simpa using hi
      have hfn : ft.getD n false = true := by simpa using hf
      have := ih n hn hfn
      simp [List.count_cons]
      omega

theorem getD_map_sqrt (d : List ℝ) (k : ℕ) (hk : k < d.length) :
    (d.map Real.sqrt).getD k 0 = Real.sqrt (d.getD k 0) := by
  rw [List.getD_eq_getElem _ _ (by simpa using hk), List.getD_eq_getElem _ _ hk,
    List.getElem_map]

/-- Claim C10: after `AxisymmetricDisk.lsq_fit`, `par_err` is either
`None` (covariance computation failed) or a full-length vector whose
fixed-parameter entries are exactly `0` and whose free entries are the
square roots of the covariance diagonal, in mask order. -/
theorem lsq_fit_par_err_structure (np : ℕ) (free : List Bool) (covDiag : Option (List ℝ))
    (hf : free.length = np)
    (hd : ∀ d, covDiag = some d → d.length = free.count true) :
    lsqParErr np free covDiag = none
    ∨ ∃ q, lsqParErr np free covDiag = some q ∧ q.length = np
        ∧ (∀ i, i < np → free.getD i false = false → q.getD i 0 = 0)
        ∧ (∀ d, covDiag = some d → ∀ i, i < np → free.getD i false = true →
            q.getD i 0 = Real.sqrt (d.getD ((free.take i).count true) 0)) := by
  cases covDiag with
  | none => exact Or.inl rfl
  | some d =>
    have hdl : d.length = free.count true := hd d rfl
    have hrep : (List.replicate np (0 : ℝ)).length = np := List.length_replicate np 0
    have hlen : free.length = (List.replicate np (0 : ℝ)).length := by rw [hrep, hf]
    refine Or.inr ⟨scatterFree free (d.map Real.sqrt) (List.replicate np (0 : ℝ)),
      rfl, ?_, ?_, ?_⟩
    · rw [scatterFree_length free _ _ hlen, hrep]
    · intro i hi hfi
      rw [scatterFree_fixed free _ _ i hlen (by rw [hrep]; exact hi) hfi]
      rw [List.getD_eq_getElem _ _ (by rw [hrep]; exact hi), List.getElem_replicate]
    · intro d' hd' i hi hfi
      have hdd : d' = d := by injection hd' with h; exact h.symm
      subst hdd
      have hq : (d'.map Real.sqrt).length = free.count true := by
        rw [List.length_map]; exact hdl
      rw [scatterFree_free free _ _ i hlen hq (by rw [hrep]; exact hi) hfi]
      exact getD_map_sqrt d' _ (by rw [hdl]; exact count_take_lt free i (by omega) hfi)

/-- Witness for C10 at a concrete input: the failed-covariance branch
returns `None`. -/
theorem lsq_fit_par_err_structure_witness :
    (([true, false] : List Bool).length = 2 ∧ (∀ d : List ℝ, (none : Option (List ℝ)) = some d → d.length = ([true, false] : List Bool).count true))
    ∧ (lsqParErr 2 [true, false] none = none
       ∨ ∃ q, lsqParErr 2 [true, false] none = some q ∧ q.length = 2
          ∧ (∀ i, i < 2 → ([true, false] : List Bool).getD i false = false → q.getD i 0 = 0)
          ∧ (∀ d, (none : Option (List ℝ)) = some d → ∀ i, i < 2 →
              ([true, false] : List Bool).getD i false = true →
              q.getD i 0 = Real.sqrt (d.getD ((([true, false] : List Bool).take i).count true) 0))) :=
  ⟨⟨rfl, fun d h => by cases h⟩,
    lsq_fit_par_err_structure 2 [true, false] none rfl (fun d h => by cases h)⟩

/-- Claim C2: the bisymmetric model velocity equals
`vsys + Vt(r)cos(theta) - V2t(r)cos(theta)cos(2 theta_b)
- V2r(r)sin(theta)sin(2 theta_b)` with
`theta_b = theta - atan(tan(phi_b_wrapped)/cos(inc))`, where
`wrapPab pab` is `pab` reduced modulo `pi` into `[-pi/2, pi/2)` -- and
strictly inside the open interval whenever `cos pab` is nonzero, i.e.
whenever a representative in the open interval exists.  No amplitude is
multiplied by `sin inc`. -/
theorem bisym_model_velocity_formula (vsys pab inc r theta : ℝ) (vt v2t v2r : ℝ → ℝ) :
    (bisymVel vsys pab inc vt v2t v2r r theta
      = vsys + vt r * Real.cos theta
          - v2t r * Real.cos theta
              * Real.cos (2 * (theta - Real.arctan (Real.tan (wrapPab pab) / Real.cos inc)))
          - v2r r * Real.sin theta
              * Real.sin (2 * (theta - Real.arctan (Real.tan (wrapPab pab) / Real.cos inc))))
    ∧ (∃ k : ℤ, wrapPab pab = pab - (k : ℝ) * Real.pi)
    ∧ (-(Real.pi / 2) ≤ wrapPab pab ∧ wrapPab pab < Real.pi / 2)
    ∧ (Real.cos pab ≠ 0 → -(Real.pi / 2) < wrapPab pab) := by
  have hpi : (0 : ℝ) < Real.pi := Real.pi_pos
  have hflo : ((⌊(pab + Real.pi / 2) / Real.pi⌋ : ℤ) : ℝ)
      ≤ (pab + Real.pi / 2) / Real.pi := Int.floor_le _
  have hfhi : (pab + Real.pi / 2) / Real.pi
      < ((⌊(pab + Real.pi / 2) / Real.pi⌋ : ℤ) : ℝ) + 1 := Int.lt_floor_add_one _
  have h1 : ((⌊(pab + Real.pi / 2) / Real.pi⌋ : ℤ) : ℝ) * Real.pi ≤ pab + Real.pi / 2 :=
    (le_div_iff₀ hpi).1 hflo
  have h2 : pab + Real.pi / 2
      < (((⌊(pab + Real.pi / 2) / Real.pi⌋ : ℤ) : ℝ) + 1) * Real.pi :=
    (div_lt_iff₀ hpi).1 hfhi
  rw [add_mul, one_mul] at h2
  have hwrap : wrapPab pab
      = pab - ((⌊(pab + Real.pi / 2) / Real.pi⌋ : ℤ) : ℝ) * Real.pi := by
    unfold wrapPab
    ring
  have hlb : -(Real.pi / 2) ≤ wrapPab pab := by
    rw [hwrap]
    linarith
  have hub : wrapPab pab < Real.pi / 2 := by
    rw [hwrap]
    linarith
  refine ⟨rfl, ⟨⌊(pab + Real.pi / 2) / Real.pi⌋, hwrap⟩, ⟨hlb, hub⟩, ?_⟩
  intro hcos
  rcases lt_or_eq_of_le hlb with hlt | heq
  · exact hlt
  · exfalso
    apply hcos
    have hpab : pab = ((⌊(pab + Real.pi / 2) / Real.pi⌋ : ℤ) : ℝ) * Real.pi - Real.pi / 2 := by
      rw [hwrap] at heq
      linarith
    rw [hpab, Real.cos_eq_zero_iff]
    refine ⟨⌊(pab + Real.pi / 2) / Real.pi⌋ - 1, ?_⟩
    push_cast
    ring

/-- Witness for C2: at `pab = 0` (where `cos pab = 1 ≠ 0`) the wrapped
bisymmetry angle lies strictly inside the open interval. -/
theorem bisym_model_velocity_formula_witness :
    Real.cos 0 ≠ 0 ∧ -(Real.pi / 2) < wrapPab 0 :=
  ⟨by rw [Real.cos_zero]; exact one_ne_zero,
    (bisym_model_velocity_formula 0 0 0 0 0 (fun _ => 0) (fun _ => 0) (fun _ => 0)).2.2.2
      (by rw [Real.cos_zero]; exact one_ne_zero)⟩

